import Mathlib

/-!
# Money arithmetic of the checkout service

A shallow embedding of `src/checkoutservice/money/money.go`.

* Go's `int64` and `int32` are modelled as `Int`, every arithmetic result being
  reduced to the two's-complement range by `wrap64` / `wrap32`.
* Go's `/` and `%` on integers truncate toward zero: `Int.tdiv` and `Int.tmod`.
* A Go result `(pb.Money, error)` is modelled as `Except Error Money`; the zero
  `pb.Money{}` that accompanies a non-nil error carries no information.
-/

namespace money

/-! ## Machine integers -/

/-- Reduction of an integer to the range of Go's `int64` (two's complement). -/
def wrap64 (x : Int) : Int := (x + 2 ^ 63) % 2 ^ 64 - 2 ^ 63

/-- Reduction of an integer to the range of Go's `int32` (two's complement). -/
def wrap32 (x : Int) : Int := (x + 2 ^ 31) % 2 ^ 32 - 2 ^ 31

/-- The values of Go's `int64`. -/
def InInt64 (x : Int) : Prop := -2 ^ 63 ≤ x ∧ x < 2 ^ 63

/-- The values of Go's `int32`. -/
def InInt32 (x : Int) : Prop := -2 ^ 31 ≤ x ∧ x < 2 ^ 31

instance (x : Int) : Decidable (InInt64 x) := by unfold InInt64; infer_instance

instance (x : Int) : Decidable (InInt32 x) := by unfold InInt32; infer_instance

/-! ## Data model -/

/-- Modelled from the spec: the record `pb.Money` of the generated protobuf
package `genproto`, which is not part of the sources. It has the three fields
`units` (`int64`), `nanos` (`int32`) and `currencyCode` (string); the getters
`GetUnits`, `GetNanos`, `GetCurrencyCode` are the field projections. -/
structure Money where
  units : Int
  nanos : Int
  currencyCode : String
  deriving DecidableEq, Repr

/-- A `Money` whose fields are values of their Go types. -/
def WellTyped (m : Money) : Prop := InInt64 m.units ∧ InInt32 m.nanos

instance (m : Money) : Decidable (WellTyped m) := by unfold WellTyped; infer_instance

/-- The two error values of the package. -/
inductive Error where
  | ErrInvalidValue
  | ErrMismatchingCurrency
  deriving DecidableEq, Repr

open Error

def nanosMin : Int := -999999999

def nanosMax : Int := 999999999

def nanosMod : Int := 1000000000

/-! ## Predicates -/

def signMatches (m : Money) : Bool :=
  m.nanos == 0 || m.units == 0 || (decide (m.nanos < 0) == decide (m.units < 0))

def validNanos (nanos : Int) : Bool :=
  decide (nanosMin ≤ nanos) && decide (nanos ≤ nanosMax)

def IsValid (m : Money) : Bool :=
  signMatches m && validNanos m.nanos

def IsZero (m : Money) : Bool :=
  m.units == 0 && m.nanos == 0

def IsPositive (m : Money) : Bool :=
  IsValid m && (decide (m.units > 0) || (m.units == 0 && decide (m.nanos > 0)))

def IsNegative (m : Money) : Bool :=
  IsValid m && (decide (m.units < 0) || (m.units == 0 && decide (m.nanos < 0)))

def AreSameCurrency (a b : Money) : Bool :=
  a.currencyCode == b.currencyCode && a.currencyCode != ""

def AreEquals (a b : Money) : Bool :=
  a.units == b.units && a.nanos == b.nanos

/-! ## Operations -/

def Negate (m : Money) : Except Error Money :=
  if !IsValid m then
    .error ErrInvalidValue
  else
    .ok { units := wrap64 (-m.units), nanos := wrap32 (-m.nanos), currencyCode := m.currencyCode }

def Sum (a b : Money) : Except Error Money :=
  if !IsValid a || !IsValid b then
    .error ErrInvalidValue
  else if a.currencyCode != b.currencyCode then
    .error ErrMismatchingCurrency
  else
    let units := wrap64 (a.units + b.units)
    let nanos := wrap32 (a.nanos + b.nanos)
    if (units == 0 && nanos == 0) || (decide (units > 0) && decide (nanos ≥ 0))
        || (decide (units < 0) && decide (nanos ≤ 0)) then
      -- same sign <units, nanos>
      .ok { units := wrap64 (units + wrap32 (Int.tdiv nanos nanosMod)),
            nanos := wrap32 (Int.tmod nanos nanosMod),
            currencyCode := a.currencyCode }
    else if units > 0 then
      .ok { units := wrap64 (units - 1),
            nanos := wrap32 (nanos + nanosMod),
            currencyCode := a.currencyCode }
    else
      .ok { units := wrap64 (units + 1),
            nanos := wrap32 (nanos - nanosMod),
            currencyCode := a.currencyCode }

/-- The loop `for i := 1; i < n; i++ { product, err = Sum(product, m); ... }` of
`MultiplySlow`, by the number `k = n - i` of iterations still to run. The body
does not read `i`, and `i++` cannot wrap because `i < n`. -/
def multiplyLoop (m : Money) : Nat → Money → Except Error Money
  | 0, product => .ok product
  | k + 1, product =>
    match Sum product m with
    | .error err => .error err
    | .ok p => multiplyLoop m k p

def MultiplySlow (m : Money) (n : Nat) : Except Error Money :=
  if !IsValid m then
    .error ErrInvalidValue
  else if n == 0 then
    .ok { units := 0, nanos := 0, currencyCode := m.currencyCode }
  else if n == 1 then
    .ok m
  else
    multiplyLoop m (n - 1) m

/-- The exact amount of a money value, in nanos. -/
def amount (m : Money) : Int := m.units * 1000000000 + m.nanos

/-- The product as the spec words it: `n` applications of `x ↦ Sum(x, m)`, starting
from the zero amount in the currency of `m` and propagating the first error. -/
def sumTimes (m : Money) : Nat → Except Error Money
  | 0 => .ok { units := 0, nanos := 0, currencyCode := m.currencyCode }
  | n + 1 =>
    match sumTimes m n with
    | .error err => .error err
    | .ok x => Sum x m

/-- The test of line 106 of `Sum` on the raw sums, which selects the branch commented
`same sign <units, nanos>`; when it fails the borrow branch runs. -/
def sameSign (units nanos : Int) : Bool :=
  (units == 0 && nanos == 0) || (decide (units > 0) && decide (nanos ≥ 0))
    || (decide (units < 0) && decide (nanos ≤ 0))

/-! ## Machine integers and truncating division -/

theorem wrap64_eq {x : Int} (h : InInt64 x) : wrap64 x = x := by
  unfold InInt64 at h
  unfold wrap64
  omega

theorem wrap32_eq {x : Int} (h : InInt32 x) : wrap32 x = x := by
  unfold InInt32 at h
  unfold wrap32
  omega

theorem wrap64_inInt64 (x : Int) : InInt64 (wrap64 x) := by
  unfold InInt64 wrap64
  omega

theorem tdiv_tmod_nonneg {x : Int} (h : 0 ≤ x) :
    Int.tdiv x nanosMod = x / 1000000000 ∧ Int.tmod x nanosMod = x % 1000000000 := by
  unfold nanosMod
  exact ⟨Int.tdiv_eq_ediv h (by decide), Int.tmod_eq_emod h (by decide)⟩

theorem tdiv_tmod_nonpos {x : Int} (h : x ≤ 0) :
    Int.tdiv x nanosMod = -((-x) / 1000000000) ∧ Int.tmod x nanosMod = -((-x) % 1000000000) := by
  have h0 : 0 ≤ -x := by omega
  obtain ⟨h1, _⟩ := tdiv_tmod_nonneg h0
  have hd : Int.tdiv x nanosMod = -((-x) / 1000000000) := by
    rw [← h1, Int.neg_tdiv, Int.neg_neg]
  refine ⟨hd, ?_⟩
  have hm := Int.tmod_def x nanosMod
  rw [hd] at hm
  unfold nanosMod at hm ⊢
  omega

theorem isValid_iff (m : Money) :
    IsValid m = true ↔
      (-999999999 ≤ m.nanos ∧ m.nanos ≤ 999999999) ∧
      (m.units = 0 ∨ m.nanos = 0 ∨ (0 < m.units ∧ 0 < m.nanos) ∨ (m.units < 0 ∧ m.nanos < 0)) := by
  simp only [IsValid, signMatches, validNanos, nanosMin, nanosMax, Bool.and_eq_true,
    Bool.or_eq_true, decide_eq_true_eq, beq_iff_eq]
  constructor
  · rintro ⟨h, h1, h2⟩
    refine ⟨⟨h1, h2⟩, ?_⟩
    rcases h with (h | h) | h
    · exact Or.inr (Or.inl h)
    · exact Or.inl h
    · by_cases hn : m.nanos < 0 <;> by_cases hu : m.units < 0 <;> simp [hn, hu] at h <;> omega
  · rintro ⟨⟨h1, h2⟩, h⟩
    refine ⟨?_, h1, h2⟩
    by_cases hn : m.nanos < 0 <;> by_cases hu : m.units < 0 <;> simp [hn, hu] <;> omega


theorem tdiv_tmod_facts {x : Int} (hl : -2000000000 < x) (hu : x < 2000000000) :
    ∃ q r, Int.tdiv x nanosMod = q ∧ Int.tmod x nanosMod = r ∧ q * 1000000000 + r = x ∧
      (0 ≤ x → 0 ≤ r ∧ r < 1000000000 ∧ 0 ≤ q ∧ q ≤ 1) ∧
      (x ≤ 0 → -1000000000 < r ∧ r ≤ 0 ∧ -1 ≤ q ∧ q ≤ 0) := by
  refine ⟨_, _, rfl, rfl, ?_, ?_, ?_⟩
  · have := Int.tdiv_add_tmod x nanosMod
    unfold nanosMod at this ⊢
    omega
  · intro h
    obtain ⟨h1, h2⟩ := tdiv_tmod_nonneg h
    rw [h1, h2]
    omega
  · intro h
    obtain ⟨h1, h2⟩ := tdiv_tmod_nonpos h
    rw [h1, h2]
    omega

theorem sum_regular {a b : Money} (ha : IsValid a = true) (hb : IsValid b = true)
    (hc : a.currencyCode = b.currencyCode)
    (hlo : -2 ^ 63 + 2 ≤ a.units + b.units) (hhi : a.units + b.units ≤ 2 ^ 63 - 2)
    (hns : a.units + b.units ≠ 0 ∨ a.nanos + b.nanos = 0) :
    ∃ r, Sum a b = .ok r ∧ IsValid r = true ∧ amount r = amount a + amount b ∧
      r.currencyCode = a.currencyCode ∧ -2 ^ 63 + 1 ≤ r.units ∧ r.units ≤ 2 ^ 63 - 1 := by
  have va := (isValid_iff a).1 ha
  have vb := (isValid_iff b).1 hb
  have hU : wrap64 (a.units + b.units) = a.units + b.units := wrap64_eq ⟨by omega, by omega⟩
  have hN : wrap32 (a.nanos + b.nanos) = a.nanos + b.nanos :=
    wrap32_eq ⟨by norm_num; omega, by norm_num; omega⟩
  simp only [Sum, ha, hb, hc, hU, hN, Bool.not_true, Bool.or_self, Bool.false_eq_true,
    if_false, bne_self_eq_false]
  split
  · rename_i h
    simp only [Bool.or_eq_true, Bool.and_eq_true, beq_iff_eq, decide_eq_true_eq] at h
    obtain ⟨q, r, hq, hr, hqr, hpos, hneg⟩ :=
      tdiv_tmod_facts (x := a.nanos + b.nanos) (by omega) (by omega)
    have hq32 : wrap32 q = q := wrap32_eq ⟨by norm_num; omega, by norm_num; omega⟩
    have hr32 : wrap32 r = r := wrap32_eq ⟨by norm_num; omega, by norm_num; omega⟩
    have hu64 : wrap64 (a.units + b.units + q) = a.units + b.units + q :=
      wrap64_eq ⟨by omega, by omega⟩
    rw [hq, hr, hq32, hr32, hu64]
    refine ⟨_, rfl, ?_, ?_, rfl, ?_, ?_⟩
    · rw [isValid_iff]
      simp only
      omega
    · simp only [amount]
      omega
    · simp only
      omega
    · simp only
      omega
  · rename_i h
    simp only [Bool.or_eq_true, Bool.and_eq_true, beq_iff_eq, decide_eq_true_eq, not_or,
      not_and] at h
    split
    · rename_i hp
      have hu64 : wrap64 (a.units + b.units - 1) = a.units + b.units - 1 :=
        wrap64_eq ⟨by omega, by omega⟩
      have hn32 : wrap32 (a.nanos + b.nanos + nanosMod) = a.nanos + b.nanos + 1000000000 :=
        wrap32_eq ⟨by norm_num [nanosMod]; omega, by norm_num [nanosMod]; omega⟩
      rw [hu64, hn32]
      refine ⟨_, rfl, ?_, ?_, rfl, ?_, ?_⟩
      · rw [isValid_iff]
        simp only
        omega
      · simp only [amount]
        omega
      · simp only
        omega
      · simp only
        omega
    · rename_i hp
      have hu64 : wrap64 (a.units + b.units + 1) = a.units + b.units + 1 :=
        wrap64_eq ⟨by omega, by omega⟩
      have hn32 : wrap32 (a.nanos + b.nanos - nanosMod) = a.nanos + b.nanos - 1000000000 :=
        wrap32_eq ⟨by norm_num [nanosMod]; omega, by norm_num [nanosMod]; omega⟩
      rw [hu64, hn32]
      refine ⟨_, rfl, ?_, ?_, rfl, ?_, ?_⟩
      · rw [isValid_iff]
        simp only
        omega
      · simp only [amount]
        omega
      · simp only
        omega
      · simp only
        omega

/-! ## Sum: validity of the result, exactness, errors -/

/-- Claim C1, evaluated on the code: both operands `{0, 5, USD}` and `{0, 0, USD}` are
valid, share their currency and add without overflow, yet `Sum` returns, without
error, `{1, -999999995, USD}`, which fails `IsValid`. The raw sums `units = 0`,
`nanos = 5` match none of the three same-sign cases, so the borrow branch runs
and, `units` not being positive, adds one unit and subtracts `nanosMod`. -/
theorem Sum_returns_invalid_when_units_cancel :
    IsValid ⟨0, 5, "USD"⟩ = true ∧ IsValid ⟨0, 0, "USD"⟩ = true ∧
    Sum ⟨0, 5, "USD"⟩ ⟨0, 0, "USD"⟩ = .ok ⟨1, -999999995, "USD"⟩ ∧
    IsValid ⟨1, -999999995, "USD"⟩ = false := by
  refine ⟨by decide, by decide, rfl, by decide⟩

/-- Claim C2, evaluated on the code: for the valid operands `{0, -800000000, USD}` and
`{0, -700000000, USD}` the raw sums are `units = 0`, `nanos = -1500000000`; the
borrow branch subtracts `nanosMod`, the `int32` wraps, and `Sum` returns
`{1, 1794967296, USD}`, whose amount is not the sum of the two amounts. -/
theorem Sum_not_exact_when_units_cancel :
    IsValid ⟨0, -800000000, "USD"⟩ = true ∧ IsValid ⟨0, -700000000, "USD"⟩ = true ∧
    Sum ⟨0, -800000000, "USD"⟩ ⟨0, -700000000, "USD"⟩ = .ok ⟨1, 1794967296, "USD"⟩ ∧
    amount ⟨1, 1794967296, "USD"⟩ ≠
      amount ⟨0, -800000000, "USD"⟩ + amount ⟨0, -700000000, "USD"⟩ := by
  refine ⟨by decide, by decide, rfl, by decide⟩

/-- Claim C3: `Sum` returns `ErrInvalidValue` exactly when one of the operands fails
`IsValid` (whatever the currency codes), `ErrMismatchingCurrency` exactly when
both are valid and the currency codes differ as strings, and a value without
error exactly in the remaining case, both valid with equal codes. -/
theorem Sum_error_behaviour (a b : Money) :
    (Sum a b = .error ErrInvalidValue ↔ (IsValid a = false ∨ IsValid b = false)) ∧
    (Sum a b = .error ErrMismatchingCurrency ↔
      (IsValid a = true ∧ IsValid b = true ∧ a.currencyCode ≠ b.currencyCode)) ∧
    ((∃ r, Sum a b = .ok r) ↔
      (IsValid a = true ∧ IsValid b = true ∧ a.currencyCode = b.currencyCode)) := by
  unfold Sum
  cases ha : IsValid a <;> cases hb : IsValid b <;> simp
  by_cases hc : a.currencyCode = b.currencyCode
  · simp only [hc, bne_self_eq_false, Bool.false_eq_true, if_false, not_true_eq_false,
      iff_false, iff_true]
    refine ⟨?_, ?_, ?_⟩ <;> (split_ifs <;> simp)
  · have hne : (a.currencyCode != b.currencyCode) = true := by simpa [bne_iff_ne] using hc
    simp [hne, hc]

/-- An instance of C3 with one empty and one non-empty currency code. -/
theorem Sum_error_behaviour_empty_code :
    Sum ⟨1, 0, ""⟩ ⟨1, 0, "USD"⟩ = .error ErrMismatchingCurrency :=
  (Sum_error_behaviour ⟨1, 0, ""⟩ ⟨1, 0, "USD"⟩).2.1.2 ⟨by decide, by decide, by decide⟩

/-! ## Negate and Sum -/

theorem negate_regular {m : Money} (hv : IsValid m = true) (hlo : -2 ^ 63 < m.units)
    (hhi : m.units < 2 ^ 63) :
    Negate m = .ok ⟨-m.units, -m.nanos, m.currencyCode⟩ ∧
      IsValid ⟨-m.units, -m.nanos, m.currencyCode⟩ = true := by
  have v := (isValid_iff m).1 hv
  have hu : wrap64 (-m.units) = -m.units := wrap64_eq ⟨by omega, by omega⟩
  have hn : wrap32 (-m.nanos) = -m.nanos := wrap32_eq ⟨by norm_num; omega, by norm_num; omega⟩
  refine ⟨?_, ?_⟩
  · simp [Negate, hv, hu, hn]
  · rw [isValid_iff]
    simp only
    omega

theorem valid_canonical {x y : Money} (hx : IsValid x = true) (hy : IsValid y = true)
    (h : amount x = amount y) : x.units = y.units ∧ x.nanos = y.nanos := by
  have vx := (isValid_iff x).1 hx
  have vy := (isValid_iff y).1 hy
  simp only [amount] at h
  omega

/-- Claim C4, refuted as stated: the valid operands `a = b = {2^63 - 1, 999999999, USD}`
share their currency, but the `int64` sum of the negated units wraps, `Sum` of the
two negated values returns the invalid `{1, -999999998, USD}`, and `Negate` of that
sum fails with `ErrInvalidValue`, while `Sum(a, b)` returns a value. -/
theorem sign_symmetry_fails_on_overflow :
    WellTyped ⟨9223372036854775807, 999999999, "USD"⟩ ∧
    IsValid ⟨9223372036854775807, 999999999, "USD"⟩ = true ∧
    ¬ ∃ na nb s r, Negate ⟨9223372036854775807, 999999999, "USD"⟩ = .ok na ∧
      Negate ⟨9223372036854775807, 999999999, "USD"⟩ = .ok nb ∧ Sum na nb = .ok s ∧
      Negate s = .ok r ∧
      Sum ⟨9223372036854775807, 999999999, "USD"⟩ ⟨9223372036854775807, 999999999, "USD"⟩ =
        .ok r := by
  refine ⟨by decide, by decide, ?_⟩
  rintro ⟨na, nb, s, r, h1, h2, h3, h4, -⟩
  have e1 : Negate ⟨9223372036854775807, 999999999, "USD"⟩ =
      .ok ⟨-9223372036854775807, -999999999, "USD"⟩ := rfl
  rw [e1] at h1 h2
  cases h1
  cases h2
  have e3 : Sum ⟨-9223372036854775807, -999999999, "USD"⟩
      ⟨-9223372036854775807, -999999999, "USD"⟩ = .ok ⟨1, -999999998, "USD"⟩ := rfl
  rw [e3] at h3
  cases h3
  have e4 : Negate ⟨1, -999999998, "USD"⟩ = .error ErrInvalidValue := rfl
  rw [e4] at h4
  cases h4

/-- Claim C4, amended: for valid `a`, `b` of the same currency whose units can be
negated and added with a carry or borrow of one unit inside `int64`
(`-2^63 < a.units`, `-2^63 < b.units`, `-2^63 + 2 ≤ a.units + b.units ≤ 2^63 - 2`)
and whose raw sums are not `units = 0` with `nanos ≠ 0`, `Negate(a)` and `Negate(b)`
succeed, `Sum` of the two negated values succeeds, `Negate` of that sum succeeds,
and its result is the result of `Sum(a, b)`. -/
theorem sign_symmetry (a b : Money) (ha : IsValid a = true) (hb : IsValid b = true)
    (hc : a.currencyCode = b.currencyCode)
    (hna : -2 ^ 63 < a.units) (hnb : -2 ^ 63 < b.units)
    (hwa : a.units < 2 ^ 63) (hwb : b.units < 2 ^ 63)
    (hlo : -2 ^ 63 + 2 ≤ a.units + b.units) (hhi : a.units + b.units ≤ 2 ^ 63 - 2)
    (hns : a.units + b.units ≠ 0 ∨ a.nanos + b.nanos = 0) :
    ∃ na nb s r, Negate a = .ok na ∧ Negate b = .ok nb ∧ Sum na nb = .ok s ∧
      Negate s = .ok r ∧ Sum a b = .ok r := by
  obtain ⟨hna1, hna2⟩ := negate_regular ha hna hwa
  obtain ⟨hnb1, hnb2⟩ := negate_regular hb hnb hwb
  obtain ⟨s, hs, hsv, hsa, hsc, hsl, hsh⟩ :=
    sum_regular hna2 hnb2 (by simpa using hc) (by simp only; omega) (by simp only; omega)
      (by simp only; omega)
  obtain ⟨hr1, hr2⟩ := negate_regular hsv (by omega) (by omega)
  obtain ⟨t, ht, htv, hta, htc, -, -⟩ := sum_regular ha hb hc hlo hhi hns
  refine ⟨_, _, s, _, hna1, hnb1, hs, hr1, ?_⟩
  rw [ht]
  have hcan := valid_canonical htv hr2 (by simp only [amount] at hsa hta ⊢; omega)
  simp only at hcan hsc
  obtain ⟨tu, tn, tc⟩ := t
  simp only at hcan htc
  rw [hcan.1, hcan.2, htc, hsc]

/-- An instance of the amended C4. -/
theorem sign_symmetry_witness :
    (IsValid ⟨1, 800000000, "USD"⟩ = true ∧ IsValid ⟨0, 500000000, "USD"⟩ = true) ∧
    ∃ na nb s r, Negate ⟨1, 800000000, "USD"⟩ = .ok na ∧ Negate ⟨0, 500000000, "USD"⟩ = .ok nb ∧
      Sum na nb = .ok s ∧ Negate s = .ok r ∧
      Sum ⟨1, 800000000, "USD"⟩ ⟨0, 500000000, "USD"⟩ = .ok r :=
  ⟨⟨by decide, by decide⟩,
   sign_symmetry ⟨1, 800000000, "USD"⟩ ⟨0, 500000000, "USD"⟩ (by decide) (by decide) (by decide)
    (by decide) (by decide) (by decide) (by decide) (by decide) (by decide) (by decide)⟩

/-- Claim C5, refuted as stated: `m = {-2^63, -5, USD}` is valid, but negating its
units wraps back to `-2^63`, so `Negate(m)` returns the invalid `{-2^63, 5, USD}`
and `Sum` of `m` and that value fails with `ErrInvalidValue`. -/
theorem additive_inverse_fails_on_overflow :
    WellTyped ⟨-9223372036854775808, -5, "USD"⟩ ∧
    IsValid ⟨-9223372036854775808, -5, "USD"⟩ = true ∧
    ¬ ∃ neg r, Negate ⟨-9223372036854775808, -5, "USD"⟩ = .ok neg ∧
      Sum ⟨-9223372036854775808, -5, "USD"⟩ neg = .ok r ∧ IsZero r = true ∧
      r.currencyCode = "USD" := by
  refine ⟨by decide, by decide, ?_⟩
  rintro ⟨neg, r, h1, h2, -, -⟩
  have e1 : Negate ⟨-9223372036854775808, -5, "USD"⟩ =
      .ok ⟨-9223372036854775808, 5, "USD"⟩ := rfl
  rw [e1] at h1
  cases h1
  have e2 : Sum ⟨-9223372036854775808, -5, "USD"⟩ ⟨-9223372036854775808, 5, "USD"⟩ =
      .error ErrInvalidValue := rfl
  rw [e2] at h2
  cases h2

theorem negate_min_units (c : String) :
    Negate ⟨-9223372036854775808, 0, c⟩ = .ok ⟨-9223372036854775808, 0, c⟩ := rfl

theorem sum_min_units (c : String) :
    Sum ⟨-9223372036854775808, 0, c⟩ ⟨-9223372036854775808, 0, c⟩ = .ok ⟨0, 0, c⟩ := by
  have hv : IsValid ⟨-9223372036854775808, 0, c⟩ = true := rfl
  simp only [Sum, hv, Bool.not_true, Bool.or_self, Bool.false_eq_true, if_false,
    bne_self_eq_false]
  rfl

/-- Claim C5, amended: for every valid `m` of `int64` units whose units are not `-2^63`
or whose nanos are zero, `Negate(m)` succeeds with some value, `Sum` of `m` and that
value succeeds, and the result satisfies `IsZero` and carries the currency code
of `m`. -/
theorem additive_inverse (m : Money) (hw : InInt64 m.units) (hv : IsValid m = true)
    (hm : m.units ≠ -2 ^ 63 ∨ m.nanos = 0) :
    ∃ neg r, Negate m = .ok neg ∧ Sum m neg = .ok r ∧ IsZero r = true ∧
      r.currencyCode = m.currencyCode := by
  have v := (isValid_iff m).1 hv
  unfold InInt64 at hw
  by_cases hmin : m.units = -9223372036854775808
  · have hn : m.nanos = 0 := by omega
    obtain ⟨u, n, c⟩ := m
    simp only at hmin hn
    subst hmin hn
    exact ⟨_, _, negate_min_units c, sum_min_units c, rfl, rfl⟩
  · obtain ⟨hn1, hn2⟩ := negate_regular hv (by omega) hw.2
    obtain ⟨r, hr, hrv, hra, hrc, -, -⟩ :=
      sum_regular hv hn2 rfl (by simp only; omega) (by simp only; omega)
        (Or.inr (by simp only; omega))
    have vr := (isValid_iff r).1 hrv
    refine ⟨_, r, hn1, hr, ?_, hrc⟩
    simp only [amount] at hra
    simp only [IsZero, Bool.and_eq_true, beq_iff_eq]
    omega

/-- An instance of the amended C5. -/
theorem additive_inverse_witness :
    IsValid ⟨-3, -250000000, "EUR"⟩ = true ∧
    ∃ neg r, Negate ⟨-3, -250000000, "EUR"⟩ = .ok neg ∧
      Sum ⟨-3, -250000000, "EUR"⟩ neg = .ok r ∧ IsZero r = true ∧ r.currencyCode = "EUR" :=
  ⟨by decide, additive_inverse ⟨-3, -250000000, "EUR"⟩ (by decide) (by decide) (by decide)⟩

/-! ## MultiplySlow -/

theorem multiplyLoop_succ (m : Money) (k : Nat) (x : Money) :
    multiplyLoop m (k + 1) x =
      match multiplyLoop m k x with
      | .error err => .error err
      | .ok p => Sum p m := by
  induction k generalizing x with
  | zero =>
    simp only [multiplyLoop]
    cases Sum x m <;> rfl
  | succ k ih =>
    rw [multiplyLoop]
    cases h : Sum x m with
    | error err => simp only [multiplyLoop, h]
    | ok p =>
      simp only
      rw [ih p]
      conv_rhs => rw [multiplyLoop, h]

theorem MultiplySlow_invalid (m : Money) (n : Nat) (h : IsValid m = false) :
    MultiplySlow m n = .error ErrInvalidValue := by
  simp [MultiplySlow, h]

/-- Claim C6, evaluated on the code: `m = {0, -800000000, USD}` is valid and no units
arithmetic overflows, yet `MultiplySlow(m, 2)` returns, without error,
`{1, 1694967296, USD}`: the raw sums of `Sum(m, m)` are `units = 0`,
`nanos = -1600000000`, the borrow branch subtracts `nanosMod` and the `int32`
wraps. The amount of the result is not twice the amount of `m`. -/
theorem MultiplySlow_not_scaling_when_units_zero :
    IsValid ⟨0, -800000000, "USD"⟩ = true ∧
    MultiplySlow ⟨0, -800000000, "USD"⟩ 2 = .ok ⟨1, 1694967296, "USD"⟩ ∧
    amount ⟨1, 1694967296, "USD"⟩ ≠ 2 * amount ⟨0, -800000000, "USD"⟩ := by
  refine ⟨by decide, rfl, by decide⟩

/-- Claim C7, evaluated on the code: `m = {0, 5, USD}` is valid and three times its
amount is 15 nanos, far from any overflow, yet `MultiplySlow(m, 3)` returns
`ErrInvalidValue`: the first `Sum(m, m)` returns the invalid `{1, -999999990, USD}`,
which the second `Sum` rejects. -/
theorem MultiplySlow_fails_without_overflow :
    IsValid ⟨0, 5, "USD"⟩ = true ∧
    Sum ⟨0, 5, "USD"⟩ ⟨0, 5, "USD"⟩ = .ok ⟨1, -999999990, "USD"⟩ ∧
    MultiplySlow ⟨0, 5, "USD"⟩ 3 = .error ErrInvalidValue := by
  refine ⟨by decide, rfl, rfl⟩

/-- Claim C8, evaluated on the code: for the valid `m = {0, 5, USD}` and `n = 1`,
`MultiplySlow` returns `m` itself, while one application of `Sum` to the zero
amount in the currency of `m` returns `{1, -999999995, USD}`. -/
theorem MultiplySlow_differs_from_sumTimes :
    IsValid ⟨0, 5, "USD"⟩ = true ∧
    MultiplySlow ⟨0, 5, "USD"⟩ 1 = .ok ⟨0, 5, "USD"⟩ ∧
    sumTimes ⟨0, 5, "USD"⟩ 1 = .ok ⟨1, -999999995, "USD"⟩ := by
  refine ⟨by decide, rfl, rfl⟩

/-- Claim C9: for every valid `m`, `MultiplySlow(m, 0)` returns without error the zero
amount in the currency of `m`, `MultiplySlow(m, 1)` returns `m` unchanged, and
whenever `MultiplySlow(m, n)` succeeds with `p` for some `n ≥ 1`,
`MultiplySlow(m, n + 1)` is `Sum(p, m)`. -/
theorem MultiplySlow_special_cases (m : Money) (hv : IsValid m = true) :
    MultiplySlow m 0 = .ok ⟨0, 0, m.currencyCode⟩ ∧
    MultiplySlow m 1 = .ok m ∧
    ∀ n p, 1 ≤ n → MultiplySlow m n = .ok p → MultiplySlow m (n + 1) = Sum p m := by
  refine ⟨by simp [MultiplySlow, hv], by simp [MultiplySlow, hv], ?_⟩
  intro n p hn hp
  obtain ⟨k, rfl⟩ : ∃ k, n = k + 1 := ⟨n - 1, by omega⟩
  have hloop : multiplyLoop m k m = .ok p := by
    cases k with
    | zero =>
      simp only [MultiplySlow, hv] at hp
      simpa [multiplyLoop] using hp
    | succ j =>
      simpa [MultiplySlow, hv] using hp
  have hstep : MultiplySlow m (k + 1 + 1) = multiplyLoop m (k + 1) m := by
    simp [MultiplySlow, hv]
  rw [hstep, multiplyLoop_succ, hloop]

/-- An instance of C9: three times `{1, 800000000, USD}` is the sum of its double and
itself. -/
theorem MultiplySlow_special_cases_witness :
    IsValid ⟨1, 800000000, "USD"⟩ = true ∧
    MultiplySlow ⟨1, 800000000, "USD"⟩ 2 = .ok ⟨3, 600000000, "USD"⟩ ∧
    MultiplySlow ⟨1, 800000000, "USD"⟩ 0 = .ok ⟨0, 0, "USD"⟩ ∧
    MultiplySlow ⟨1, 800000000, "USD"⟩ 1 = .ok ⟨1, 800000000, "USD"⟩ ∧
    MultiplySlow ⟨1, 800000000, "USD"⟩ 3 = Sum ⟨3, 600000000, "USD"⟩ ⟨1, 800000000, "USD"⟩ :=
  have h := MultiplySlow_special_cases ⟨1, 800000000, "USD"⟩ (by decide)
  ⟨by decide, rfl, h.1, h.2.1, h.2.2 2 ⟨3, 600000000, "USD"⟩ (by decide) rfl⟩

/-! ## IsValid -/

/-- Claim C10: `IsValid(m)` holds exactly when `-999999999 ≤ nanos ≤ 999999999` and
`units = 0`, or `nanos = 0`, or units and nanos are both positive or both negative.
It rejects nanos `1000000000` and `-1000000000` with any units, accepts nanos
`999999999` with units `≥ 0` and `-999999999` with units `≤ 0`, rejects `{5, -5}`,
accepts `{5, 5}`, `{0, -5}` and `{-5, 0}`, and does not depend on the currency
code. -/
theorem IsValid_characterisation :
    (∀ m : Money, IsValid m = true ↔
      (-999999999 ≤ m.nanos ∧ m.nanos ≤ 999999999) ∧
      (m.units = 0 ∨ m.nanos = 0 ∨ (0 < m.units ∧ 0 < m.nanos) ∨
        (m.units < 0 ∧ m.nanos < 0))) ∧
    (∀ (u : Int) (c : String), IsValid ⟨u, 1000000000, c⟩ = false) ∧
    (∀ (u : Int) (c : String), IsValid ⟨u, -1000000000, c⟩ = false) ∧
    (∀ (u : Int) (c : String), 0 ≤ u → IsValid ⟨u, 999999999, c⟩ = true) ∧
    (∀ (u : Int) (c : String), u ≤ 0 → IsValid ⟨u, -999999999, c⟩ = true) ∧
    (∀ c : String, IsValid ⟨5, -5, c⟩ = false) ∧
    (∀ c : String, IsValid ⟨5, 5, c⟩ = true) ∧
    (∀ c : String, IsValid ⟨0, -5, c⟩ = true) ∧
    (∀ c : String, IsValid ⟨-5, 0, c⟩ = true) ∧
    (∀ (u n : Int) (c d : String), IsValid ⟨u, n, c⟩ = IsValid ⟨u, n, d⟩) := by
  refine ⟨isValid_iff, ?_, ?_, ?_, ?_, ?_, ?_, ?_, ?_, ?_⟩
  · intro u c
    rw [← Bool.not_eq_true, isValid_iff]
    simp only
    omega
  · intro u c
    rw [← Bool.not_eq_true, isValid_iff]
    simp only
    omega
  · intro u c h
    rw [isValid_iff]
    simp only
    omega
  · intro u c h
    rw [isValid_iff]
    simp only
    omega
  · intro c
    rfl
  · intro c
    rfl
  · intro c
    rfl
  · intro c
    rfl
  · intro u n c d
    rfl

/-- An instance of C10 at the upper nanos bound. -/
theorem IsValid_characterisation_witness :
    IsValid ⟨7, 999999999, "USD"⟩ = true ∧ IsValid ⟨-7, -999999999, "USD"⟩ = true :=
  ⟨IsValid_characterisation.2.2.2.1 7 "USD" (by decide),
   IsValid_characterisation.2.2.2.2.1 (-7) "USD" (by decide)⟩

/-! ## Negate -/

theorem negate_ok_of_valid {m : Money} (hv : IsValid m = true) :
    Negate m = .ok ⟨wrap64 (-m.units), -m.nanos, m.currencyCode⟩ := by
  have v := (isValid_iff m).1 hv
  have hn : wrap32 (-m.nanos) = -m.nanos := wrap32_eq ⟨by norm_num; omega, by norm_num; omega⟩
  simp [Negate, hv, hn]

theorem negate_error_of_invalid {m : Money} (hv : IsValid m = false) :
    Negate m = .error ErrInvalidValue := by
  simp [Negate, hv]

/-- Claim C11, refuted as stated: `m = {-2^63, 0, USD}` is valid, but negating its
units wraps in `int64`, so `Negate(m)` returns `{-2^63, 0, USD}`: the units are not
the exact negation of the units of `m` and the amount is not the exact negation
of the amount of `m`. -/
theorem Negate_not_exact_at_min_units :
    WellTyped ⟨-9223372036854775808, 0, "USD"⟩ ∧
    IsValid ⟨-9223372036854775808, 0, "USD"⟩ = true ∧
    Negate ⟨-9223372036854775808, 0, "USD"⟩ = .ok ⟨-9223372036854775808, 0, "USD"⟩ ∧
    ¬ ∃ r, Negate ⟨-9223372036854775808, 0, "USD"⟩ = .ok r ∧
      r.units = -(-9223372036854775808) ∧
      amount r = -amount ⟨-9223372036854775808, 0, "USD"⟩ := by
  refine ⟨by decide, by decide, rfl, ?_⟩
  rintro ⟨r, h, hu, -⟩
  have e : Negate ⟨-9223372036854775808, 0, "USD"⟩ =
      .ok ⟨-9223372036854775808, 0, "USD"⟩ := rfl
  rw [e] at h
  cases h
  simp only at hu
  omega

/-- Claim C11, amended: `Negate(m)` returns `ErrInvalidValue` exactly when `IsValid(m)`
is false; for every valid `m` of `int64` units it returns, without error, the
Money with the two's-complement negation of the units, `nanos = -m.nanos` and the
same currency code; and when the units of `m` are not `-2^63` the units of the
result are exactly `-m.units` and its amount is the exact negation of the amount
of `m`. -/
theorem Negate_spec (m : Money) (hw : InInt64 m.units) :
    (Negate m = .error ErrInvalidValue ↔ IsValid m = false) ∧
    (IsValid m = true →
      Negate m = .ok ⟨wrap64 (-m.units), -m.nanos, m.currencyCode⟩) ∧
    (IsValid m = true → m.units ≠ -2 ^ 63 →
      Negate m = .ok ⟨-m.units, -m.nanos, m.currencyCode⟩ ∧
      amount ⟨-m.units, -m.nanos, m.currencyCode⟩ = -amount m) := by
  unfold InInt64 at hw
  refine ⟨?_, fun hv => negate_ok_of_valid hv, ?_⟩
  · cases hv : IsValid m
    · simp [negate_error_of_invalid hv]
    · simp [negate_ok_of_valid hv]
  · intro hv hne
    have hu : wrap64 (-m.units) = -m.units := wrap64_eq ⟨by omega, by omega⟩
    refine ⟨by rw [negate_ok_of_valid hv, hu], ?_⟩
    simp only [amount]
    omega

/-- An instance of the amended C11. -/
theorem Negate_spec_witness :
    InInt64 3 ∧ IsValid ⟨3, 250000000, "EUR"⟩ = true ∧
    Negate ⟨3, 250000000, "EUR"⟩ = .ok ⟨-3, -250000000, "EUR"⟩ ∧
    amount ⟨-3, -250000000, "EUR"⟩ = -amount ⟨3, 250000000, "EUR"⟩ :=
  ⟨by decide, by decide,
   (Negate_spec ⟨3, 250000000, "EUR"⟩ (by decide)).2.2 (by decide) (by decide)⟩

/-! ## Sign predicates and comparisons -/

/-- Claim C12: `IsPositive(m)` holds exactly when `m` is valid and its exact amount
`units * 10^9 + nanos` is above zero, `IsNegative(m)` exactly when `m` is valid and
that amount is below zero; so for a valid `m` exactly one of `IsZero`, `IsPositive`,
`IsNegative` holds, and for an invalid `m` both `IsPositive` and `IsNegative` are
false. -/
theorem sign_predicates (m : Money) :
    (IsPositive m = true ↔ (IsValid m = true ∧ 0 < amount m)) ∧
    (IsNegative m = true ↔ (IsValid m = true ∧ amount m < 0)) ∧
    (IsValid m = true →
      (IsZero m = true ∧ IsPositive m = false ∧ IsNegative m = false) ∨
      (IsZero m = false ∧ IsPositive m = true ∧ IsNegative m = false) ∨
      (IsZero m = false ∧ IsPositive m = false ∧ IsNegative m = true)) ∧
    (IsValid m = false → IsPositive m = false ∧ IsNegative m = false) := by
  have hp : IsPositive m = true ↔ (IsValid m = true ∧ 0 < amount m) := by
    simp only [IsPositive, amount, Bool.and_eq_true, Bool.or_eq_true, decide_eq_true_eq,
      beq_iff_eq]
    constructor
    · rintro ⟨hv, h⟩
      have v := (isValid_iff m).1 hv
      exact ⟨hv, by omega⟩
    · rintro ⟨hv, h⟩
      have v := (isValid_iff m).1 hv
      exact ⟨hv, by omega⟩
  have hn : IsNegative m = true ↔ (IsValid m = true ∧ amount m < 0) := by
    simp only [IsNegative, amount, Bool.and_eq_true, Bool.or_eq_true, decide_eq_true_eq,
      beq_iff_eq]
    constructor
    · rintro ⟨hv, h⟩
      have v := (isValid_iff m).1 hv
      exact ⟨hv, by omega⟩
    · rintro ⟨hv, h⟩
      have v := (isValid_iff m).1 hv
      exact ⟨hv, by omega⟩
  have hz : IsZero m = true ↔ (m.units = 0 ∧ m.nanos = 0) := by
    simp [IsZero]
  refine ⟨hp, hn, ?_, ?_⟩
  · intro hv
    have v := (isValid_iff m).1 hv
    simp only [← Bool.not_eq_true, hp, hn, hz, hv, true_and, amount]
    omega
  · intro hv
    simp [IsPositive, IsNegative, hv]

/-- An instance of C12: a valid negative amount below one unit. -/
theorem sign_predicates_witness :
    IsValid ⟨0, -5, "USD"⟩ = true ∧
    ((IsZero ⟨0, -5, "USD"⟩ = true ∧ IsPositive ⟨0, -5, "USD"⟩ = false ∧
        IsNegative ⟨0, -5, "USD"⟩ = false) ∨
      (IsZero ⟨0, -5, "USD"⟩ = false ∧ IsPositive ⟨0, -5, "USD"⟩ = true ∧
        IsNegative ⟨0, -5, "USD"⟩ = false) ∨
      (IsZero ⟨0, -5, "USD"⟩ = false ∧ IsPositive ⟨0, -5, "USD"⟩ = false ∧
        IsNegative ⟨0, -5, "USD"⟩ = true)) :=
  ⟨by decide, (sign_predicates ⟨0, -5, "USD"⟩).2.2.1 (by decide)⟩

/-- Claim C13: `AreSameCurrency(a, b)` holds exactly when the two currency codes are
equal and not empty, whatever the units and nanos; it is false when both codes
are empty, and symmetric; `AreEquals(a, b)` holds exactly when the units and the
nanos are pairwise equal, whatever the currency codes. -/
theorem currency_and_equality (a b : Money) :
    (AreSameCurrency a b = true ↔
      (a.currencyCode = b.currencyCode ∧ a.currencyCode ≠ "")) ∧
    (∀ (u n v k : Int),
      AreSameCurrency ⟨u, n, a.currencyCode⟩ ⟨v, k, b.currencyCode⟩ = AreSameCurrency a b) ∧
    (∀ (u n v k : Int), AreSameCurrency ⟨u, n, ""⟩ ⟨v, k, ""⟩ = false) ∧
    AreSameCurrency a b = AreSameCurrency b a ∧
    (AreEquals a b = true ↔ (a.units = b.units ∧ a.nanos = b.nanos)) ∧
    (∀ (c d : String),
      AreEquals ⟨a.units, a.nanos, c⟩ ⟨b.units, b.nanos, d⟩ = AreEquals a b) := by
  refine ⟨?_, fun _ _ _ _ => rfl, fun _ _ _ _ => rfl, ?_, ?_, fun _ _ => rfl⟩
  · simp [AreSameCurrency]
  · rw [Bool.eq_iff_iff]
    simp only [AreSameCurrency, Bool.and_eq_true, beq_iff_eq, bne_iff_ne, ne_eq]
    constructor
    · rintro ⟨h1, h2⟩
      exact ⟨h1.symm, h1 ▸ h2⟩
    · rintro ⟨h1, h2⟩
      exact ⟨h1.symm, h1 ▸ h2⟩
  · simp [AreEquals]

/-! ## Sum: currency check, normalisation, identity, commutativity -/

theorem sum_ok_iff (a b : Money) :
    (∃ r, Sum a b = .ok r) ↔
      (IsValid a = true ∧ IsValid b = true ∧ a.currencyCode = b.currencyCode) := by
  unfold Sum
  cases ha : IsValid a <;> cases hb : IsValid b <;> simp
  by_cases hc : a.currencyCode = b.currencyCode
  · simp only [hc, bne_self_eq_false, Bool.false_eq_true, if_false, iff_true]
    split_ifs <;> simp
  · have hne : (a.currencyCode != b.currencyCode) = true := by simpa [bne_iff_ne] using hc
    simp [hne, hc]

theorem sum_mismatch_iff (a b : Money) :
    Sum a b = .error ErrMismatchingCurrency ↔
      (IsValid a = true ∧ IsValid b = true ∧ a.currencyCode ≠ b.currencyCode) := by
  unfold Sum
  cases ha : IsValid a <;> cases hb : IsValid b <;> simp
  by_cases hc : a.currencyCode = b.currencyCode
  · simp only [hc, bne_self_eq_false, Bool.false_eq_true, if_false, not_true_eq_false,
      iff_false]
    split_ifs <;> simp
  · have hne : (a.currencyCode != b.currencyCode) = true := by simpa [bne_iff_ne] using hc
    simp [hne, hc]

/-- Claim C14: for valid `a`, `b`, if `AreSameCurrency(a, b)` then `Sum(a, b)` does not
return `ErrMismatchingCurrency`; and `Sum(a, b)` returns a value while
`AreSameCurrency(a, b)` is false exactly when both currency codes are empty. -/
theorem Sum_currency_asymmetry (a b : Money) (ha : IsValid a = true) (hb : IsValid b = true) :
    (AreSameCurrency a b = true → Sum a b ≠ .error ErrMismatchingCurrency) ∧
    (((∃ r, Sum a b = .ok r) ∧ AreSameCurrency a b = false) ↔
      (a.currencyCode = "" ∧ b.currencyCode = "")) := by
  have hs : AreSameCurrency a b = true ↔
      (a.currencyCode = b.currencyCode ∧ a.currencyCode ≠ "") := by
    simp [AreSameCurrency]
  refine ⟨?_, ?_⟩
  · intro h hm
    exact ((sum_mismatch_iff a b).1 hm).2.2 (hs.1 h).1
  · rw [sum_ok_iff, ← Bool.not_eq_true, hs]
    constructor
    · rintro ⟨⟨-, -, hc⟩, hn⟩
      have he : a.currencyCode = "" := by
        by_contra hne
        exact hn ⟨hc, hne⟩
      exact ⟨he, hc ▸ he⟩
    · rintro ⟨h1, h2⟩
      exact ⟨⟨ha, hb, h1.trans h2.symm⟩, fun h => h.2 h1⟩

/-- An instance of C14: two valid amounts without currency code add up although they
are not of the same currency. -/
theorem Sum_currency_asymmetry_witness :
    IsValid ⟨1, 0, ""⟩ = true ∧ IsValid ⟨2, 0, ""⟩ = true ∧
    (∃ r, Sum ⟨1, 0, ""⟩ ⟨2, 0, ""⟩ = .ok r) ∧ AreSameCurrency ⟨1, 0, ""⟩ ⟨2, 0, ""⟩ = false :=
  ⟨by decide, by decide,
   (Sum_currency_asymmetry ⟨1, 0, ""⟩ ⟨2, 0, ""⟩ (by decide) (by decide)).2.2 ⟨rfl, rfl⟩⟩

theorem sum_exact {a b : Money} (ha : IsValid a = true) (hb : IsValid b = true)
    (hc : a.currencyCode = b.currencyCode) (hne : a.units + b.units ≠ 0)
    (hU : InInt64 (a.units + b.units))
    (hC : InInt64 (a.units + b.units + Int.tdiv (a.nanos + b.nanos) nanosMod)) :
    ∃ r, Sum a b = .ok r ∧ IsValid r = true ∧ amount r = amount a + amount b ∧
      r.currencyCode = a.currencyCode ∧
      (0 < a.units + b.units → 0 ≤ a.nanos + b.nanos →
        r = ⟨a.units + b.units + Int.tdiv (a.nanos + b.nanos) nanosMod,
             Int.tmod (a.nanos + b.nanos) nanosMod, a.currencyCode⟩) := by
  have va := (isValid_iff a).1 ha
  have vb := (isValid_iff b).1 hb
  have hU64 : wrap64 (a.units + b.units) = a.units + b.units := wrap64_eq hU
  have hN : wrap32 (a.nanos + b.nanos) = a.nanos + b.nanos :=
    wrap32_eq ⟨by norm_num; omega, by norm_num; omega⟩
  obtain ⟨q, r, hq, hr, hqr, hpos, hneg⟩ :=
    tdiv_tmod_facts (x := a.nanos + b.nanos) (by omega) (by omega)
  rw [hq] at hC
  unfold InInt64 at hU hC
  simp only [Sum, ha, hb, hc, hU64, hN, hq, hr, Bool.not_true, Bool.or_self,
    Bool.false_eq_true, if_false, bne_self_eq_false]
  split
  · rename_i h
    simp only [Bool.or_eq_true, Bool.and_eq_true, beq_iff_eq, decide_eq_true_eq] at h
    have hq32 : wrap32 q = q := wrap32_eq ⟨by norm_num; omega, by norm_num; omega⟩
    have hr32 : wrap32 r = r := wrap32_eq ⟨by norm_num; omega, by norm_num; omega⟩
    have hu64 : wrap64 (a.units + b.units + q) = a.units + b.units + q := wrap64_eq hC
    rw [hq32, hr32, hu64]
    refine ⟨_, rfl, ?_, ?_, rfl, fun _ _ => rfl⟩
    · rw [isValid_iff]
      simp only
      omega
    · simp only [amount]
      omega
  · rename_i h
    simp only [Bool.or_eq_true, Bool.and_eq_true, beq_iff_eq, decide_eq_true_eq, not_or,
      not_and] at h
    split
    · rename_i hp
      have hu64 : wrap64 (a.units + b.units - 1) = a.units + b.units - 1 :=
        wrap64_eq ⟨by omega, by omega⟩
      have hn32 : wrap32 (a.nanos + b.nanos + nanosMod) = a.nanos + b.nanos + 1000000000 :=
        wrap32_eq ⟨by norm_num [nanosMod]; omega, by norm_num [nanosMod]; omega⟩
      rw [hu64, hn32]
      refine ⟨_, rfl, ?_, ?_, rfl, ?_⟩
      · rw [isValid_iff]
        simp only
        omega
      · simp only [amount]
        omega
      · intro h1 h2
        omega
    · rename_i hp
      have hu64 : wrap64 (a.units + b.units + 1) = a.units + b.units + 1 :=
        wrap64_eq ⟨by omega, by omega⟩
      have hn32 : wrap32 (a.nanos + b.nanos - nanosMod) = a.nanos + b.nanos - 1000000000 :=
        wrap32_eq ⟨by norm_num [nanosMod]; omega, by norm_num [nanosMod]; omega⟩
      rw [hu64, hn32]
      refine ⟨_, rfl, ?_, ?_, rfl, ?_⟩
      · rw [isValid_iff]
        simp only
        omega
      · simp only [amount]
        omega
      · intro h1 h2
        omega

/-- Claim C15: for valid `a`, `b` with the same currency code whose whole-unit sum
`a.units + b.units` is nonzero and fits `int64` together with the carried sum
`a.units + b.units + (a.nanos + b.nanos) / 10^9` (truncating division), `Sum(a, b)`
returns the unique valid Money in that currency whose amount is the sum of the
two amounts; when the raw units are positive and the raw nanos nonnegative it is
`{units + nanos / 10^9, nanos % 10^9}`. -/
theorem Sum_normalises (a b : Money) (ha : IsValid a = true) (hb : IsValid b = true)
    (hc : a.currencyCode = b.currencyCode) (hne : a.units + b.units ≠ 0)
    (hU : InInt64 (a.units + b.units))
    (hC : InInt64 (a.units + b.units + Int.tdiv (a.nanos + b.nanos) nanosMod)) :
    ∃ r, Sum a b = .ok r ∧ IsValid r = true ∧ amount r = amount a + amount b ∧
      r.currencyCode = a.currencyCode ∧
      (∀ x : Money, IsValid x = true → amount x = amount a + amount b →
        x.currencyCode = a.currencyCode → x = r) ∧
      (0 < a.units + b.units → 0 ≤ a.nanos + b.nanos →
        r = ⟨a.units + b.units + Int.tdiv (a.nanos + b.nanos) nanosMod,
             Int.tmod (a.nanos + b.nanos) nanosMod, a.currencyCode⟩) := by
  obtain ⟨r, hr, hv, hamt, hcode, hform⟩ := sum_exact ha hb hc hne hU hC
  refine ⟨r, hr, hv, hamt, hcode, ?_, hform⟩
  intro x hx hxa hxc
  obtain ⟨h1, h2⟩ := valid_canonical hx hv (hxa.trans hamt.symm)
  obtain ⟨xu, xn, xc⟩ := x
  obtain ⟨ru, rn, rc⟩ := r
  simp only at h1 h2 hxc hcode
  rw [h1, h2, hxc, hcode]

/-- An instance of C15, the scenario of the spec: one unit is carried. -/
theorem Sum_normalises_witness :
    (∃ r, Sum ⟨1, 800000000, "USD"⟩ ⟨0, 500000000, "USD"⟩ = .ok r ∧ IsValid r = true ∧
      amount r = amount ⟨1, 800000000, "USD"⟩ + amount ⟨0, 500000000, "USD"⟩ ∧
      r.currencyCode = "USD" ∧
      (∀ x : Money, IsValid x = true →
        amount x = amount ⟨1, 800000000, "USD"⟩ + amount ⟨0, 500000000, "USD"⟩ →
        x.currencyCode = "USD" → x = r) ∧
      ((0 : Int) < 1 + 0 → (0 : Int) ≤ 800000000 + 500000000 →
        r = ⟨1 + 0 + Int.tdiv (800000000 + 500000000) nanosMod,
             Int.tmod (800000000 + 500000000) nanosMod, "USD"⟩)) ∧
    Sum ⟨1, 800000000, "USD"⟩ ⟨0, 500000000, "USD"⟩ = .ok ⟨2, 300000000, "USD"⟩ :=
  ⟨Sum_normalises ⟨1, 800000000, "USD"⟩ ⟨0, 500000000, "USD"⟩ (by decide) (by decide)
    (by decide) (by decide) (by decide) (by decide), rfl⟩

theorem sameSign_false_iff (u n : Int) :
    sameSign u n = false ↔ ((0 < u ∧ n < 0) ∨ (u < 0 ∧ 0 < n) ∨ (u = 0 ∧ n ≠ 0)) := by
  rw [← Bool.not_eq_true]
  simp only [sameSign, Bool.or_eq_true, Bool.and_eq_true, beq_iff_eq, decide_eq_true_eq]
  omega

theorem sum_borrow_branch {a b : Money} (ha : IsValid a = true) (hb : IsValid b = true)
    (hc : a.currencyCode = b.currencyCode)
    (hs : sameSign (wrap64 (a.units + b.units)) (wrap32 (a.nanos + b.nanos)) = false) :
    Sum a b = .ok
      (if wrap64 (a.units + b.units) > 0 then
        ⟨wrap64 (wrap64 (a.units + b.units) - 1),
          wrap32 (wrap32 (a.nanos + b.nanos) + nanosMod), a.currencyCode⟩
      else
        ⟨wrap64 (wrap64 (a.units + b.units) + 1),
          wrap32 (wrap32 (a.nanos + b.nanos) - nanosMod), a.currencyCode⟩) := by
  unfold sameSign at hs
  simp only [Sum, ha, hb, hc, hs, Bool.not_true, Bool.or_self, Bool.false_eq_true,
    if_false, bne_self_eq_false]
  split <;> rfl

theorem sum_zero_identity_regular {m : Money} (hv : IsValid m = true) (hw : InInt64 m.units)
    (hns : m.units ≠ 0 ∨ m.nanos = 0) :
    Sum m ⟨0, 0, m.currencyCode⟩ = .ok m ∧ Sum ⟨0, 0, m.currencyCode⟩ m = .ok m := by
  have v := (isValid_iff m).1 hv
  have hz : IsValid ⟨0, 0, m.currencyCode⟩ = true := rfl
  have key : ∀ r : Money, IsValid r = true → amount r = amount m →
      r.currencyCode = m.currencyCode → r = m := by
    intro r hr hra hrc
    obtain ⟨h1, h2⟩ := valid_canonical hr hv hra
    obtain ⟨ru, rn, rc⟩ := r
    obtain ⟨mu, mn, mc⟩ := m
    simp only at h1 h2 hrc
    rw [h1, h2, hrc]
  by_cases hu : m.units = 0
  · have hn : m.nanos = 0 := by omega
    obtain ⟨r, hr, hrv, hra, hrc, -, -⟩ :=
      sum_regular hv hz rfl (by simp only; omega) (by simp only; omega)
        (Or.inr (by simp only; omega))
    obtain ⟨t, ht, htv, hta, htc, -, -⟩ :=
      sum_regular hz hv rfl (by simp only; omega) (by simp only; omega)
        (Or.inr (by simp only; omega))
    refine ⟨?_, ?_⟩
    · rw [hr, key r hrv (by simp only [amount] at hra ⊢; omega) hrc]
    · rw [ht, key t htv (by simp only [amount] at hta ⊢; omega) htc]
  · obtain ⟨q, r0, hq, -, hqr, hpos, hneg⟩ :=
      tdiv_tmod_facts (x := m.nanos) (by omega) (by omega)
    have hq0 : q = 0 := by omega
    have hd : Int.tdiv m.nanos nanosMod = 0 := by rw [hq, hq0]
    unfold InInt64 at hw
    obtain ⟨r, hr, hrv, hra, hrc, -⟩ :=
      sum_exact hv hz rfl (by simp only; omega)
        (by simp only [Int.add_zero]; exact hw)
        (by simp only [Int.add_zero, hd]; exact hw)
    obtain ⟨t, ht, htv, hta, htc, -⟩ :=
      sum_exact hz hv rfl (by simp only; omega)
        (by simp only [Int.zero_add]; exact hw)
        (by simp only [Int.zero_add, hd, Int.add_zero]; exact hw)
    refine ⟨?_, ?_⟩
    · rw [hr, key r hrv (by simp only [amount] at hra ⊢; omega) hrc]
    · rw [ht, key t htv (by simp only [amount] at hta ⊢; omega) htc]

/-- Claim C16, evaluated on the code: for the valid `m = {0, 5, USD}` and the zero amount
`z = {0, 0, USD}`, both `Sum(m, z)` and `Sum(z, m)` return `{1, -999999995, USD}`
instead of `m`: the raw sums `units = 0`, `nanos = 5` take the borrow branch. -/
theorem Sum_zero_not_identity_when_units_zero :
    IsValid ⟨0, 5, "USD"⟩ = true ∧
    Sum ⟨0, 5, "USD"⟩ ⟨0, 0, "USD"⟩ = .ok ⟨1, -999999995, "USD"⟩ ∧
    Sum ⟨0, 0, "USD"⟩ ⟨0, 5, "USD"⟩ = .ok ⟨1, -999999995, "USD"⟩ ∧
    Sum ⟨0, 5, "USD"⟩ ⟨0, 0, "USD"⟩ ≠ .ok ⟨0, 5, "USD"⟩ ∧
    Sum ⟨0, 0, "USD"⟩ ⟨0, 5, "USD"⟩ ≠ .ok ⟨0, 5, "USD"⟩ := by
  refine ⟨by decide, rfl, rfl, ?_, ?_⟩
  · intro h
    have e : Sum ⟨0, 5, "USD"⟩ ⟨0, 0, "USD"⟩ = .ok ⟨1, -999999995, "USD"⟩ := rfl
    rw [e] at h
    cases h
  · intro h
    have e : Sum ⟨0, 0, "USD"⟩ ⟨0, 5, "USD"⟩ = .ok ⟨1, -999999995, "USD"⟩ := rfl
    rw [e] at h
    cases h

/-- Claim C17, evaluated on the code: for the valid operands `{0, 5, USD}` and
`{0, 0, USD}` the raw sums are `units = 0`, `nanos = 5`; the same-sign test fails, so
the borrow branch runs, although the signs do not conflict (`units` is neither
positive with negative nanos nor negative with positive nanos); borrowing gives
`{1, -999999995, USD}`, which is not sign-consistent. -/
theorem borrow_branch_without_sign_conflict :
    IsValid ⟨0, 5, "USD"⟩ = true ∧ IsValid ⟨0, 0, "USD"⟩ = true ∧
    wrap64 (0 + 0) = 0 ∧ wrap32 (5 + 0) = 5 ∧
    sameSign (wrap64 (0 + 0)) (wrap32 (5 + 0)) = false ∧
    ¬ ((wrap64 (0 + 0) > 0 ∧ wrap32 (5 + 0) < 0) ∨
       (wrap64 (0 + 0) < 0 ∧ wrap32 (5 + 0) > 0)) ∧
    Sum ⟨0, 5, "USD"⟩ ⟨0, 0, "USD"⟩ = .ok ⟨1, -999999995, "USD"⟩ ∧
    signMatches ⟨1, -999999995, "USD"⟩ = false := by
  refine ⟨by decide, by decide, by decide, by decide, by decide, by decide, rfl, by decide⟩

/-- Claim C18: for valid `a` and `b` the exact amounts `units * 10^9 + nanos` are equal
exactly when `AreEquals(a, b)` holds. -/
theorem AreEquals_iff_amount_eq (a b : Money) (ha : IsValid a = true) (hb : IsValid b = true) :
    amount a = amount b ↔ AreEquals a b = true := by
  simp only [AreEquals, Bool.and_eq_true, beq_iff_eq]
  constructor
  · intro h
    exact valid_canonical ha hb h
  · rintro ⟨h1, h2⟩
    simp only [amount, h1, h2]

/-- An instance of C18: equal amounts in different currencies are equal for
`AreEquals`. -/
theorem AreEquals_iff_amount_eq_witness :
    IsValid ⟨2, 300000000, "USD"⟩ = true ∧ IsValid ⟨2, 300000000, "EUR"⟩ = true ∧
    AreEquals ⟨2, 300000000, "USD"⟩ ⟨2, 300000000, "EUR"⟩ = true :=
  ⟨by decide, by decide,
   (AreEquals_iff_amount_eq ⟨2, 300000000, "USD"⟩ ⟨2, 300000000, "EUR"⟩
     (by decide) (by decide)).1 (by decide)⟩

/-- Claim C19: `Sum(a, b)` and `Sum(b, a)` are the same result for all `a`, `b`, valid or
not and with any currency codes: the same error, or the same units, nanos and
currency code. -/
theorem Sum_commutative (a b : Money) : Sum a b = Sum b a := by
  unfold Sum
  rw [Int.add_comm b.units a.units, Int.add_comm b.nanos a.nanos,
    Bool.or_comm (!IsValid b) (!IsValid a)]
  by_cases hc : a.currencyCode = b.currencyCode
  · simp only [hc]
  · have h1 : (a.currencyCode != b.currencyCode) = true := by simpa [bne_iff_ne] using hc
    have h2 : (b.currencyCode != a.currencyCode) = true := by
      simpa [bne_iff_ne] using fun h => hc h.symm
    simp only [h1, h2, if_true]

/-- Claim C20, refuted as stated: `m = {-2^63, -1, EUR}` is valid, but the
two's-complement negation of its units is `-2^63` again, so `Negate(m)` returns
`{-2^63, 1, EUR}`, which fails `IsValid`. -/
theorem Negate_invalid_at_min_units :
    WellTyped ⟨-9223372036854775808, -1, "EUR"⟩ ∧
    IsValid ⟨-9223372036854775808, -1, "EUR"⟩ = true ∧
    ¬ ∃ r, Negate ⟨-9223372036854775808, -1, "EUR"⟩ = .ok r ∧ IsValid r = true := by
  refine ⟨by decide, by decide, ?_⟩
  rintro ⟨r, h, hv⟩
  have e : Negate ⟨-9223372036854775808, -1, "EUR"⟩ =
      .ok ⟨-9223372036854775808, 1, "EUR"⟩ := rfl
  rw [e] at h
  cases h
  revert hv
  decide

/-- Claim C20, amended: for every valid `m` of `int64` units whose units are not `-2^63`
or whose nanos are zero, `Negate(m)` succeeds with a result that satisfies
`IsValid`, and `Negate` of that result succeeds and returns `m`; when the units
are not `-2^63`, `IsPositive(m)` holds exactly when `IsNegative` holds of the
negated value. -/
theorem Negate_involution (m : Money) (hw : InInt64 m.units) (hv : IsValid m = true)
    (hm : m.units ≠ -2 ^ 63 ∨ m.nanos = 0) :
    ∃ r, Negate m = .ok r ∧ IsValid r = true ∧ Negate r = .ok m ∧
      (m.units ≠ -2 ^ 63 → (IsPositive m = true ↔ IsNegative r = true)) := by
  have v := (isValid_iff m).1 hv
  unfold InInt64 at hw
  by_cases hmin : m.units = -9223372036854775808
  · have hn : m.nanos = 0 := by omega
    obtain ⟨u, n, c⟩ := m
    simp only at hmin hn
    subst hmin hn
    exact ⟨_, negate_min_units c, hv, negate_min_units c, fun h => absurd rfl h⟩
  · obtain ⟨h1, h2⟩ := negate_regular hv (by omega) hw.2
    obtain ⟨h3, -⟩ := negate_regular h2 (by simp only; omega) (by simp only; omega)
    refine ⟨_, h1, h2, ?_, ?_⟩
    · rw [h3]
      simp only [Int.neg_neg]
    · intro _
      simp only [IsPositive, IsNegative, hv, h2, Bool.true_and, Bool.or_eq_true,
        Bool.and_eq_true, decide_eq_true_eq, beq_iff_eq]
      omega

/-- An instance of the amended C20. -/
theorem Negate_involution_witness :
    IsValid ⟨3, 250000000, "EUR"⟩ = true ∧
    ∃ r, Negate ⟨3, 250000000, "EUR"⟩ = .ok r ∧ IsValid r = true ∧
      Negate r = .ok ⟨3, 250000000, "EUR"⟩ ∧
      ((3 : Int) ≠ -2 ^ 63 → (IsPositive ⟨3, 250000000, "EUR"⟩ = true ↔ IsNegative r = true)) :=
  ⟨by decide, Negate_involution ⟨3, 250000000, "EUR"⟩ (by decide) (by decide) (by decide)⟩

end money
